import Mathlib

/-
Verification of the dice-roller core (src/multi_dice_roller.py).

The embedding below follows the Python source function by function:
* `get_grid_layout_dimensions` : the grid-layout utility (lines 89-109);
* `calculate_frequencies`      : the face-frequency histogram (lines 111-117),
  modelled as an ordered association list mirroring the Python dict whose
  keys 1..6 are fixed at initialisation;
* `random_float` / `DiceAnimationController.generate_random_duration`
  (lines 158-202), in exact rational arithmetic, parametrised by the
  32-bit integer read from `secrets.token_bytes(4)`;
* `DiceAnimationController.animate_single_die` / `animate_all_dice`
  (lines 204-220), parametrised by the per-task random draws
  (`secrets.randbelow(6)` becomes a `Fin 6` argument) and the sampled
  durations; widget display updates are UI-only and carry no session state;
* `AppState` and the `DiceRollerApp` actions (reactive fields and the
  `action_*` methods, lines 404-906); the reactive watcher
  `watch_dice_count` runs exactly when `dice_count` is assigned a new
  value, which the action models invoke explicitly; the `await` of
  `animate_all_dice` inside `action_roll_unlocked_dice` is modelled by an
  `Except Unit (List Nat)` argument standing for the value returned, or
  the exception raised, by the coordinator.
-/

/-- Python `get_grid_layout_dimensions` (src lines 89-109): the 1..8 lookup
table, `(0,0)` for zero, and the documented fallbacks `(4,(n+3)//4)` for
`n > 8` and `(1,1)` for any other value. -/
def get_grid_layout_dimensions (dice_count : Int) : Int × Int :=
  if ¬(1 ≤ dice_count ∧ dice_count ≤ 8) then
    if dice_count = 0 then (0, 0)
    else if dice_count > 8 then (4, (dice_count + 3) / 4)
    else (1, 1)
  else
    match dice_count with
    | 1 => (1, 1)
    | 2 => (2, 1)
    | 3 => (3, 1)
    | 4 => (2, 2)
    | 5 => (3, 2)
    | 6 => (3, 2)
    | 7 => (4, 2)
    | 8 => (4, 2)
    | _ => (1, 1)

/-- One iteration of the `for result in results` loop of
`calculate_frequencies`: `if 1 <= result <= 6: frequencies[result] += 1`. -/
def freq_update (m : List (Int × Nat)) (r : Int) : List (Int × Nat) :=
  if 1 ≤ r ∧ r ≤ 6 then
    m.map (fun p => if p.1 = r then (p.1, p.2 + 1) else p)
  else m

/-- The loop of `calculate_frequencies`, threading the dict through the
results list in order. -/
def freq_loop (m : List (Int × Nat)) : List Int → List (Int × Nat)
  | [] => m
  | r :: rest => freq_loop (freq_update m r) rest

/-- Python `calculate_frequencies` (src lines 111-117): dict initialised
with keys 1..6 at count 0, then bumped per in-range result. The Python dict
preserves insertion order, so an ordered association list is a faithful
model. -/
def calculate_frequencies (results : List Int) : List (Int × Nat) :=
  freq_loop [(1, 0), (2, 0), (3, 0), (4, 0), (5, 0), (6, 0)] results

/-- Python `random_float` (src lines 158-189) in exact arithmetic.
`n` is the 32-bit unsigned integer `int.from_bytes(secrets.token_bytes(4))`;
the function computes `min_val + (n / (2^32 - 1)) * (max_val - min_val)`
after the degenerate-range checks (raising, modelled as `.error`, when
`min_val > max_val`). -/
def random_float (min_val max_val : ℚ) (n : ℕ) : Except Unit ℚ :=
  if min_val ≥ max_val then
    if min_val > max_val then .error ()
    else .ok min_val
  else
    .ok (min_val + ((n : ℚ) / ((2 ^ 32 : ℚ) - 1)) * (max_val - min_val))

/-- Python `DiceAnimationController.generate_random_duration`
(src lines 199-202): `random_float(0.3, 0.6)`. -/
def generate_random_duration (n : ℕ) : Except Unit ℚ :=
  random_float (3 / 10) (3 / 5) n

/-- The animation controller; only the length of its `dice_widgets` list is
session-relevant (the widgets themselves are rendering objects). -/
structure DiceAnimationController where
  num_widgets : ℕ
deriving DecidableEq

/-- Python `DiceAnimationController.animate_single_die` (src lines 204-216):
out-of-range indices return 1 immediately; otherwise, after the cosmetic
frame loop (display-only), the final face is `secrets.randbelow(6) + 1`,
the draw being the `Fin 6` argument. `duration` only sets the cosmetic
frame count and never influences the returned face. -/
def DiceAnimationController.animate_single_die
    (c : DiceAnimationController) (index : Int) (duration : ℚ)
    (draw : Fin 6) : ℕ :=
  if 0 ≤ index ∧ index < (c.num_widgets : Int) then
    let _frames := duration
    (draw : ℕ) + 1
  else 1

/-- Python `DiceAnimationController.animate_all_dice` (src lines 218-220):
one task per index, each with its own sampled duration (`durs k`) and final
draw (`draws k`); `asyncio.gather` returns the results in task order. -/
def DiceAnimationController.animate_all_dice
    (c : DiceAnimationController) (indices : List Int)
    (durs : ℕ → ℚ) (draws : ℕ → Fin 6) : List ℕ :=
  ((List.range indices.length).zip indices).map
    (fun p => c.animate_single_die p.2 (durs p.1) (draws p.1))

/-- The session-relevant reactive state of `DiceRollerApp`
(src lines 404-411). -/
structure AppState where
  dice_count : ℕ
  is_rolling : Bool
  current_results : List ℕ
  selected_die_index : ℕ
  locked_dice : Finset ℕ
  app_roll_count : ℕ
deriving DecidableEq

/-- Outcomes of the actions, mirroring the notification / early-return paths
of the Python methods. -/
inductive Outcome where
  | changed
  | noop
  | outOfRange
  | removed
  | minReached
  | rejectedRolling
  | noDiceToRoll
  | allDiceLocked
  | rolled
  | animationError
  | mismatchError
  | noneRolled
deriving DecidableEq

/-- Python `DiceRollerApp.watch_dice_count` (src lines 507-545), run after
`dice_count` has been assigned its new value: resets `current_results` to
all ones at the new length and clamps `selected_die_index`; it does not
touch `locked_dice`. UI work (grid rebuild, button labels) carries no
session state. -/
def watch_dice_count (s : AppState) : AppState :=
  let s1 :=
    if s.dice_count > 0 then
      { s with current_results := List.replicate s.dice_count 1 }
    else
      { s with current_results := [] }
  if s1.selected_die_index ≥ s1.dice_count ∧ s1.dice_count > 0 then
    { s1 with selected_die_index := s1.dice_count - 1 }
  else if s1.dice_count = 0 then
    { s1 with selected_die_index := 0 }
  else s1

/-- Python `DiceRollerApp.action_set_dice_count` (src lines 724-734);
assigning `dice_count` a different value triggers `watch_dice_count`. -/
def action_set_dice_count (s : AppState) (count : ℕ) : AppState × Outcome :=
  if s.is_rolling then (s, .rejectedRolling)
  else if 1 ≤ count ∧ count ≤ 8 then
    if s.dice_count ≠ count then
      (watch_dice_count { s with dice_count := count }, .changed)
    else (s, .noop)
  else (s, .outOfRange)

/-- Python `DiceRollerApp.action_remove_die` (src lines 712-722);
`dice_count -= 1` above the minimum triggers `watch_dice_count`. -/
def action_remove_die (s : AppState) : AppState × Outcome :=
  if s.is_rolling then (s, .rejectedRolling)
  else if s.dice_count > 1 then
    (watch_dice_count { s with dice_count := s.dice_count - 1 }, .removed)
  else (s, .minReached)

/-- Python `DiceRollerApp.action_reset_dice` (src lines 736-751): results to
all ones, roll counter to 0, lock set cleared; `dice_count` and
`selected_die_index` untouched. -/
def action_reset_dice (s : AppState) : AppState :=
  if s.is_rolling then s
  else
    { s with
      current_results :=
        if s.dice_count > 0 then List.replicate s.dice_count 1 else [],
      app_roll_count := 0,
      locked_dice := ∅ }

/-- The `unlocked_indices` list comprehension of
`action_roll_unlocked_dice` (src line 848). -/
def unlockedIndices (s : AppState) : List ℕ :=
  (List.range s.dice_count).filter (fun i => decide (i ∉ s.locked_dice))

/-- The result-merging `for i, actual_die_index in enumerate(...)` loop of
`action_roll_unlocked_dice` (src lines 884-889): pairs of
(die index, rolled face) are written into the results list in order, with
the `0 <= actual_die_index < dice_count` bounds check; the `Bool` is
`rolled_at_least_one`. -/
def rollLoop (dc : ℕ) : List ℕ → Bool → List (ℕ × ℕ) → List ℕ × Bool
  | base, flag, [] => (base, flag)
  | base, flag, p :: rest =>
      if p.1 < dc then rollLoop dc (base.set p.1 p.2) true rest
      else rollLoop dc base flag rest

/-- Python `DiceRollerApp.action_roll_unlocked_dice` (src lines 829-906).
`animResult` is what `await animate_all_dice(...)` produced: `.ok faces`,
or `.error ()` when a task raised (the `except Exception` branch). The
guard paths return before the coordinator is invoked, so `animResult` is
unused there. -/
def action_roll_unlocked_dice (s : AppState)
    (animResult : Except Unit (List ℕ)) : AppState × Outcome :=
  if s.is_rolling then (s, .rejectedRolling)
  else if s.dice_count = 0 then (s, .noDiceToRoll)
  else if (unlockedIndices s).isEmpty then (s, .allDiceLocked)
  else
    match animResult with
    | .error _ => ({ s with is_rolling := false }, .animationError)
    | .ok res =>
        let base :=
          if s.current_results.length ≠ s.dice_count then
            List.replicate s.dice_count 1
          else s.current_results
        if (unlockedIndices s).length = res.length then
          let mr := rollLoop s.dice_count base false ((unlockedIndices s).zip res)
          if mr.2 then
            ({ s with
                current_results := mr.1,
                app_roll_count := s.app_roll_count + 1,
                is_rolling := false }, .rolled)
          else ({ s with is_rolling := false }, .noneRolled)
        else ({ s with is_rolling := false }, .mismatchError)

/-- A complete successful roll: the coordinator is called on
`unlocked_indices` exactly as in src line 866, and its returned list is
committed by `action_roll_unlocked_dice`. -/
def roll_with_controller (s : AppState) (c : DiceAnimationController)
    (durs : ℕ → ℚ) (draws : ℕ → Fin 6) : AppState × Outcome :=
  action_roll_unlocked_dice s
    (.ok (c.animate_all_dice ((unlockedIndices s).map Int.ofNat) durs draws))

/- ### Helper lemmas about the embedded operations -/

theorem mem_unlockedIndices {s : AppState} {i : ℕ} :
    i ∈ unlockedIndices s ↔ i < s.dice_count ∧ i ∉ s.locked_dice := by
  simp [unlockedIndices, List.mem_filter, List.mem_range]

theorem nodup_unlockedIndices (s : AppState) : (unlockedIndices s).Nodup :=
  (List.nodup_range s.dice_count).filter _

theorem rollLoop_length (dc : ℕ) (pairs : List (ℕ × ℕ)) :
    ∀ base flag, (rollLoop dc base flag pairs).1.length = base.length := by
  induction pairs with
  | nil => intro base flag; rfl
  | cons p rest ih =>
      intro base flag
      simp only [rollLoop]
      split_ifs
      · rw [ih (base.set p.1 p.2) true, List.length_set]
      · exact ih base flag

theorem rollLoop_getElem?_untouched (dc : ℕ) (pairs : List (ℕ × ℕ)) :
    ∀ base flag i, (∀ p ∈ pairs, p.1 ≠ i) →
      (rollLoop dc base flag pairs).1[i]? = base[i]? := by
  induction pairs with
  | nil => intro base flag i _; rfl
  | cons p rest ih =>
      intro base flag i h
      have hp : p.1 ≠ i := h p (List.mem_cons_self p rest)
      have hrest : ∀ q ∈ rest, q.1 ≠ i := fun q hq => h q (List.mem_cons_of_mem p hq)
      simp only [rollLoop]
      split_ifs
      · rw [ih _ _ _ hrest, List.getElem?_set_ne hp]
      · exact ih base flag i hrest

theorem rollLoop_getElem?_commit (dc : ℕ) (pairs : List (ℕ × ℕ)) :
    ∀ (base : List ℕ) (flag : Bool) (k j v : ℕ), (pairs.map Prod.fst).Nodup →
      pairs[k]? = some (j, v) → j < dc → j < base.length →
      (rollLoop dc base flag pairs).1[j]? = some v := by
  induction pairs with
  | nil => intro base flag k j v _ hk _ _; simp at hk
  | cons p rest ih =>
      intro base flag k j v hnd hk hj hlen
      match k with
      | 0 =>
          rw [List.getElem?_cons_zero] at hk
          have hpjv : p = (j, v) := by injection hk
          subst hpjv
          have hjrest : (j : ℕ) ∉ rest.map Prod.fst := by
            simp only [List.map_cons] at hnd
            exact (List.nodup_cons.mp hnd).1
          have hrest : ∀ q ∈ rest, q.1 ≠ j := by
            intro q hq hqe
            exact hjrest (hqe ▸ List.mem_map_of_mem Prod.fst hq)
          simp only [rollLoop, if_pos hj]
          rw [rollLoop_getElem?_untouched dc rest _ _ _ hrest,
            List.getElem?_set_eq_of_lt v hlen]
      | k + 1 =>
          rw [List.getElem?_cons_succ] at hk
          have hnd2 : (rest.map Prod.fst).Nodup := by
            simp only [List.map_cons] at hnd
            exact (List.nodup_cons.mp hnd).2
          simp only [rollLoop]
          split_ifs
          · exact ih _ _ k j v hnd2 hk hj (by rw [List.length_set]; exact hlen)
          · exact ih _ _ k j v hnd2 hk hj hlen

theorem rollLoop_flag_true (dc : ℕ) (pairs : List (ℕ × ℕ)) :
    ∀ base, (rollLoop dc base true pairs).2 = true := by
  induction pairs with
  | nil => intro base; rfl
  | cons p rest ih =>
      intro base
      simp only [rollLoop]
      split_ifs
      · exact ih _
      · exact ih base

theorem rollLoop_flag_of_mem (dc : ℕ) (pairs : List (ℕ × ℕ)) :
    ∀ base flag p, p ∈ pairs → p.1 < dc → (rollLoop dc base flag pairs).2 = true := by
  induction pairs with
  | nil => intro _ _ _ h; simp at h
  | cons q rest ih =>
      intro base flag p hp hlt
      simp only [rollLoop]
      split_ifs with hq
      · exact rollLoop_flag_true dc rest _
      · rcases List.mem_cons.mp hp with rfl | hp2
        · exact absurd hlt hq
        · exact ih base flag p hp2 hlt

theorem animate_all_dice_length (c : DiceAnimationController) (indices : List Int)
    (durs : ℕ → ℚ) (draws : ℕ → Fin 6) :
    (c.animate_all_dice indices durs draws).length = indices.length := by
  simp [DiceAnimationController.animate_all_dice]

theorem animate_all_dice_getElem? (c : DiceAnimationController) (indices : List Int)
    (durs : ℕ → ℚ) (draws : ℕ → Fin 6) (k : ℕ) (idx : Int)
    (hk : indices[k]? = some idx) :
    (c.animate_all_dice indices durs draws)[k]? =
      some (c.animate_single_die idx (durs k) (draws k)) := by
  have hkn : k < indices.length := (List.getElem?_eq_some.mp hk).1
  simp only [DiceAnimationController.animate_all_dice, List.getElem?_map]
  rw [show ((List.range indices.length).zip indices)[k]? = some (k, idx) from
    List.getElem?_zip_eq_some.mpr ⟨by simp [hkn], hk⟩]
  rfl

theorem animate_single_die_face_bounds (c : DiceAnimationController) (index : Int)
    (duration : ℚ) (draw : Fin 6) :
    1 ≤ c.animate_single_die index duration draw ∧
      c.animate_single_die index duration draw ≤ 6 := by
  unfold DiceAnimationController.animate_single_die
  split_ifs
  · have := draw.isLt
    omega
  · omega

theorem animate_all_dice_face_bounds (c : DiceAnimationController) (indices : List Int)
    (durs : ℕ → ℚ) (draws : ℕ → Fin 6) :
    ∀ f ∈ c.animate_all_dice indices durs draws, 1 ≤ f ∧ f ≤ 6 := by
  intro f hf
  simp only [DiceAnimationController.animate_all_dice, List.mem_map] at hf
  obtain ⟨p, _, rfl⟩ := hf
  exact animate_single_die_face_bounds c p.2 (durs p.1) (draws p.1)

/- ### Claim C1 -/

/-- Claim C1: the code violates the `lockedSet ⊆ [0, diceCount)` invariant.
Starting from the reachable state with 3 dice and die 2 locked, both
`action_set_dice_count 2` and `action_remove_die` shrink the count to 2 but
leave index 2 in the lock set, because `watch_dice_count` never touches
`locked_dice`; the stale index refers to a die that no longer exists. -/
theorem locked_index_survives_shrink :
    ((action_set_dice_count ⟨3, false, [1, 1, 1], 0, {2}, 0⟩ 2).1.dice_count = 2 ∧
      2 ∈ (action_set_dice_count ⟨3, false, [1, 1, 1], 0, {2}, 0⟩ 2).1.locked_dice) ∧
    ((action_remove_die ⟨3, false, [1, 1, 1], 0, {2}, 0⟩).1.dice_count = 2 ∧
      2 ∈ (action_remove_die ⟨3, false, [1, 1, 1], 0, {2}, 0⟩).1.locked_dice) := by
  decide

/- ### Claim C2 -/

/-- Claim C2 counterexample: growing from 2 dice with faces `[5, 3]` to 3
dice does not keep `results[0] = 5`; `watch_dice_count` resets every face to
1, so the claim that `results[i]` is unchanged for `i < min(m, n)` is false. -/
theorem set_dice_count_overwrites_kept_faces :
    (action_set_dice_count ⟨2, false, [5, 3], 0, ∅, 0⟩ 3).1.current_results = [1, 1, 1] ∧
    ¬ (action_set_dice_count ⟨2, false, [5, 3], 0, ∅, 0⟩ 3).1.current_results[0]? = some 5 := by
  decide

/-- Claim C2 (amended): for `1 ≤ n ≤ 8` and a non-rolling state,
`setDiceCount(n)` with `n = diceCount` is a no-op with no error, and with
`n ≠ diceCount` it resizes `results` to length `n` with every entry reset to
face 1, clamps `selectedIndex` to `min(selectedIndex, n-1)`, and leaves the
lock set, rolling flag and roll counter unchanged. -/
theorem set_dice_count_spec (s : AppState) (n : ℕ)
    (hroll : s.is_rolling = false) (h1 : 1 ≤ n) (h8 : n ≤ 8) :
    (n = s.dice_count → action_set_dice_count s n = (s, .noop)) ∧
    (n ≠ s.dice_count →
      (action_set_dice_count s n).2 = .changed ∧
      (action_set_dice_count s n).1.dice_count = n ∧
      (action_set_dice_count s n).1.current_results = List.replicate n 1 ∧
      (action_set_dice_count s n).1.selected_die_index =
        min s.selected_die_index (n - 1) ∧
      (action_set_dice_count s n).1.locked_dice = s.locked_dice ∧
      (action_set_dice_count s n).1.is_rolling = s.is_rolling ∧
      (action_set_dice_count s n).1.app_roll_count = s.app_roll_count) := by
  constructor
  · intro h
    subst h
    simp [action_set_dice_count, hroll, h1, h8]
  · intro h
    have hne : s.dice_count ≠ n := Ne.symm h
    simp only [action_set_dice_count, hroll, Bool.false_eq_true, if_false,
      if_pos (And.intro h1 h8), if_pos hne]
    simp only [watch_dice_count]
    split_ifs with hpos hsel hzero <;> simp_all <;> omega

/-- Claim C2 witness: concrete instance of `set_dice_count_spec` at the
initial one-die state with `n = 3`. -/
theorem set_dice_count_spec_witness :
    (action_set_dice_count ⟨1, false, [1], 0, ∅, 0⟩ 3).2 = .changed ∧
    (action_set_dice_count ⟨1, false, [1], 0, ∅, 0⟩ 3).1.dice_count = 3 ∧
    (action_set_dice_count ⟨1, false, [1], 0, ∅, 0⟩ 3).1.current_results = [1, 1, 1] := by
  have h := (set_dice_count_spec ⟨1, false, [1], 0, ∅, 0⟩ 3 rfl (by decide)
    (by decide)).2 (by decide)
  exact ⟨h.1, h.2.1, by rw [h.2.2.1]; rfl⟩

/- ### Claim C5 -/

/-- Claim C5 counterexample: out-of-range inputs do not fail; the code
silently returns a fallback layout: `9 ↦ (4, 3)` (the 4-column fallback) and
`-3 ↦ (1, 1)`. -/
theorem grid_layout_fallback_not_failure :
    get_grid_layout_dimensions 9 = (4, 3) ∧
    get_grid_layout_dimensions (-3) = (1, 1) := by
  decide

/-- Claim C5 (amended): `get_grid_layout_dimensions` matches the reference
table on 1..8 and returns `(0,0)` at 0, but for every other input it returns
a fallback layout instead of failing: `(4, (n+3)/4)` for `n > 8` and `(1,1)`
for negative `n`. -/
theorem grid_layout_spec :
    (get_grid_layout_dimensions 1 = (1, 1) ∧ get_grid_layout_dimensions 2 = (2, 1) ∧
     get_grid_layout_dimensions 3 = (3, 1) ∧ get_grid_layout_dimensions 4 = (2, 2) ∧
     get_grid_layout_dimensions 5 = (3, 2) ∧ get_grid_layout_dimensions 6 = (3, 2) ∧
     get_grid_layout_dimensions 7 = (4, 2) ∧ get_grid_layout_dimensions 8 = (4, 2)) ∧
    get_grid_layout_dimensions 0 = (0, 0) ∧
    (∀ n : Int, 8 < n → get_grid_layout_dimensions n = (4, (n + 3) / 4)) ∧
    (∀ n : Int, n < 0 → get_grid_layout_dimensions n = (1, 1)) := by
  refine ⟨by decide, by decide, ?_, ?_⟩
  · intro n hn
    rw [get_grid_layout_dimensions, if_pos (by omega), if_neg (by omega), if_pos hn]
    all_goals omega
  · intro n hn
    rw [get_grid_layout_dimensions, if_pos (by omega), if_neg (by omega),
      if_neg (by omega)]
    all_goals omega

/-- Claim C5 witness: `grid_layout_spec` instantiated at the out-of-range
inputs 9 and -1. -/
theorem grid_layout_spec_witness :
    get_grid_layout_dimensions 9 = (4, 3) ∧
    get_grid_layout_dimensions (-1) = (1, 1) := by
  constructor
  · rw [grid_layout_spec.2.2.1 9 (by norm_num)]
    decide
  · exact grid_layout_spec.2.2.2 (-1) (by norm_num)

/- ### Claim C7 -/

/-- Claim C7: the duration sampler misses its documented half-open range.
When `secrets.token_bytes(4)` reads `0xffffffff` (normalised integer
`2^32 - 1`), `generate_random_duration` returns exactly `3/5 = 0.6`, because
`random_float` divides by `2^32 - 1` instead of `2^32`; the strict upper
bound `d < 0.6` of the spec and of the function docstring fails. -/
theorem duration_reaches_upper_endpoint :
    generate_random_duration (2 ^ 32 - 1) = .ok (3 / 5) ∧ ¬ ((3 : ℚ) / 5 < 3 / 5) := by
  constructor
  · norm_num [generate_random_duration, random_float]
  · norm_num

/- ### Claim C9 -/

/-- Claim C9: from any non-rolling state, `action_reset_dice` sets every
results entry to 1 (a list of `diceCount` ones), empties the lock set, zeroes
the roll counter, and leaves `diceCount` and `selectedIndex` unchanged. -/
theorem reset_dice_spec (s : AppState) (hroll : s.is_rolling = false) :
    (action_reset_dice s).current_results = List.replicate s.dice_count 1 ∧
    (action_reset_dice s).locked_dice = ∅ ∧
    (action_reset_dice s).app_roll_count = 0 ∧
    (action_reset_dice s).dice_count = s.dice_count ∧
    (action_reset_dice s).selected_die_index = s.selected_die_index := by
  have hne : ¬ (s.is_rolling = true) := by simp [hroll]
  unfold action_reset_dice
  rw [if_neg hne]
  refine ⟨?_, rfl, rfl, rfl, rfl⟩
  split_ifs with h
  · rfl
  · simp [show s.dice_count = 0 by omega]

/-- Claim C9 witness: `reset_dice_spec` at a state with two locked dice,
nonzero faces and a nonzero roll counter. -/
theorem reset_dice_spec_witness :
    (action_reset_dice ⟨2, false, [6, 2], 1, {0, 1}, 9⟩).current_results = [1, 1] ∧
    (action_reset_dice ⟨2, false, [6, 2], 1, {0, 1}, 9⟩).locked_dice = ∅ ∧
    (action_reset_dice ⟨2, false, [6, 2], 1, {0, 1}, 9⟩).app_roll_count = 0 ∧
    (action_reset_dice ⟨2, false, [6, 2], 1, {0, 1}, 9⟩).dice_count = 2 ∧
    (action_reset_dice ⟨2, false, [6, 2], 1, {0, 1}, 9⟩).selected_die_index = 1 := by
  have h := reset_dice_spec ⟨2, false, [6, 2], 1, {0, 1}, 9⟩ rfl
  exact ⟨by rw [h.1]; rfl, h.2.1, h.2.2.1, h.2.2.2.1, h.2.2.2.2⟩

/- ### Claim C4 -/

/-- Claim C4: if the animation coordinator raises (any per-die task errors),
`action_roll_unlocked_dice` aborts atomically: the returned state is exactly
the pre-roll state (results, lock set and roll counter untouched,
`is_rolling` back to `false`) and the animation-failure outcome is
surfaced. -/
theorem roll_animation_error_atomic (s : AppState)
    (hroll : s.is_rolling = false) (hdc : 0 < s.dice_count)
    (hne : unlockedIndices s ≠ []) :
    action_roll_unlocked_dice s (.error ()) = (s, .animationError) := by
  have h1 : ¬ (s.is_rolling = true) := by simp [hroll]
  have h2 : ¬ (s.dice_count = 0) := by omega
  have h3 : ¬ ((unlockedIndices s).isEmpty = true) := by
    simpa [List.isEmpty_iff] using hne
  unfold action_roll_unlocked_dice
  rw [if_neg h1, if_neg h2, if_neg h3]
  show ({ s with is_rolling := false }, Outcome.animationError) = (s, .animationError)
  have hs : ({ s with is_rolling := false } : AppState) = s := by
    cases s
    simp_all
  rw [hs]

/-- Claim C4 witness: `roll_animation_error_atomic` at a concrete two-dice
state; the state is returned bit-for-bit unchanged. -/
theorem roll_animation_error_atomic_witness :
    action_roll_unlocked_dice ⟨2, false, [4, 2], 0, ∅, 5⟩ (.error ()) =
      (⟨2, false, [4, 2], 0, ∅, 5⟩, .animationError) :=
  roll_animation_error_atomic ⟨2, false, [4, 2], 0, ∅, 5⟩ rfl (by decide) (by decide)

/- ### Claim C6 -/

/-- Claim C6: when every die index below `diceCount` is locked (and there is
at least one die, as the session invariant guarantees),
`action_roll_unlocked_dice` reports the benign all-dice-locked outcome and
returns the state completely unchanged, whatever the coordinator would have
produced. -/
theorem roll_all_locked_noop (s : AppState) (animResult : Except Unit (List ℕ))
    (hroll : s.is_rolling = false) (hdc : 0 < s.dice_count)
    (hall : ∀ i < s.dice_count, i ∈ s.locked_dice) :
    action_roll_unlocked_dice s animResult = (s, .allDiceLocked) := by
  have h1 : ¬ (s.is_rolling = true) := by simp [hroll]
  have h2 : ¬ (s.dice_count = 0) := by omega
  have hu : unlockedIndices s = [] := by
    rw [unlockedIndices, List.filter_eq_nil_iff]
    intro a ha
    simp only [List.mem_range] at ha
    simp [hall a ha]
  unfold action_roll_unlocked_dice
  rw [if_neg h1, if_neg h2, if_pos (by simp [hu])]

/-- Claim C6 witness: `roll_all_locked_noop` with both of two dice locked;
results, lock set and roll counter are returned unchanged. -/
theorem roll_all_locked_noop_witness :
    action_roll_unlocked_dice ⟨2, false, [3, 4], 0, {0, 1}, 7⟩ (.ok [5, 5]) =
      (⟨2, false, [3, 4], 0, {0, 1}, 7⟩, .allDiceLocked) :=
  roll_all_locked_noop ⟨2, false, [3, 4], 0, {0, 1}, 7⟩ (.ok [5, 5]) rfl
    (by decide) (by decide)

/- ### Claim C10 -/

/-- Claim C10: `animate_single_die` returns final face 1 for every index
outside `[0, len(dice_widgets))` (negative or too large), and a roll over an
index list containing such an index silently reports face 1 at that
position instead of failing. -/
theorem animate_out_of_range_returns_one :
    (∀ (c : DiceAnimationController) (index : Int) (duration : ℚ) (draw : Fin 6),
        ¬ (0 ≤ index ∧ index < (c.num_widgets : Int)) →
        c.animate_single_die index duration draw = 1) ∧
    (∀ (c : DiceAnimationController) (indices : List Int) (durs : ℕ → ℚ)
        (draws : ℕ → Fin 6) (k : ℕ) (index : Int),
        indices[k]? = some index →
        ¬ (0 ≤ index ∧ index < (c.num_widgets : Int)) →
        (c.animate_all_dice indices durs draws)[k]? = some 1) := by
  constructor
  · intro c index duration draw h
    simp [DiceAnimationController.animate_single_die, h]
  · intro c indices durs draws k index hk h
    rw [animate_all_dice_getElem? c indices durs draws k index hk]
    simp [DiceAnimationController.animate_single_die, h]

/-- Claim C10 witness: a controller with 2 widgets, single call at index 5,
and a roll over `[0, 5]` reporting face 1 at position 1. -/
theorem animate_out_of_range_returns_one_witness :
    DiceAnimationController.animate_single_die ⟨2⟩ 5 (1 / 2) ⟨3, by omega⟩ = 1 ∧
    (DiceAnimationController.animate_all_dice ⟨2⟩ [0, 5]
        (fun _ => 1 / 2) (fun _ => ⟨3, by omega⟩))[1]? = some 1 := by
  constructor
  · exact animate_out_of_range_returns_one.1 ⟨2⟩ 5 (1 / 2) ⟨3, by omega⟩ (by decide)
  · exact animate_out_of_range_returns_one.2 ⟨2⟩ [0, 5] (fun _ => 1 / 2)
      (fun _ => ⟨3, by omega⟩) 1 5 (by decide) (by decide)

/- ### Claim C8 -/

theorem freq_loop_counts (rs : List Int) :
    ∀ a1 a2 a3 a4 a5 a6 : ℕ,
      freq_loop [(1, a1), (2, a2), (3, a3), (4, a4), (5, a5), (6, a6)] rs =
        [(1, a1 + rs.count 1), (2, a2 + rs.count 2), (3, a3 + rs.count 3),
         (4, a4 + rs.count 4), (5, a5 + rs.count 5), (6, a6 + rs.count 6)] := by
  induction rs with
  | nil => intro a1 a2 a3 a4 a5 a6; simp [freq_loop]
  | cons r rest ih =>
      intro a1 a2 a3 a4 a5 a6
      simp only [freq_loop]
      by_cases hr : 1 ≤ r ∧ r ≤ 6
      · obtain ⟨hr1, hr2⟩ := hr
        interval_cases r <;>
          (simp only [freq_update, List.map_cons, List.map_nil, List.count_cons]
           norm_num
           rw [ih]
           simp
           omega)
      · rw [show freq_update [(1, a1), (2, a2), (3, a3), (4, a4), (5, a5), (6, a6)] r =
            [(1, a1), (2, a2), (3, a3), (4, a4), (5, a5), (6, a6)] from by
          rw [freq_update, if_neg hr]]
        rw [ih]
        simp [List.count_cons, show ¬ r = 1 by omega, show ¬ r = 2 by omega,
          show ¬ r = 3 by omega, show ¬ r = 4 by omega, show ¬ r = 5 by omega,
          show ¬ r = 6 by omega]

theorem calculate_frequencies_eq (rs : List Int) :
    calculate_frequencies rs =
      [(1, rs.count 1), (2, rs.count 2), (3, rs.count 3),
       (4, rs.count 4), (5, rs.count 5), (6, rs.count 6)] := by
  have h := freq_loop_counts rs 0 0 0 0 0 0
  simpa [calculate_frequencies] using h

theorem count_sum_eq_countP (rs : List Int) :
    rs.count 1 + rs.count 2 + rs.count 3 + rs.count 4 + rs.count 5 + rs.count 6 =
      rs.countP (fun r => decide (1 ≤ r ∧ r ≤ 6)) := by
  induction rs with
  | nil => simp
  | cons r rest ih =>
      simp only [List.count_cons, List.countP_cons, beq_iff_eq, decide_eq_true_eq]
      by_cases hr : 1 ≤ r ∧ r ≤ 6
      · obtain ⟨hr1, hr2⟩ := hr
        interval_cases r <;> (norm_num at ih ⊢; omega)
      · rw [if_neg hr, if_neg (show ¬ r = 1 by omega), if_neg (show ¬ r = 2 by omega),
          if_neg (show ¬ r = 3 by omega), if_neg (show ¬ r = 4 by omega),
          if_neg (show ¬ r = 5 by omega), if_neg (show ¬ r = 6 by omega)]
        omega

/-- Claim C8 counterexample: on input `[7]` the six counts sum to 0, not to
`len(results) = 1`; an out-of-range entry is silently dropped, so the counts
do not partition an arbitrary integer list. -/
theorem frequencies_miss_out_of_range_entries :
    ((calculate_frequencies [7]).map Prod.snd).sum = 0 ∧ ([7] : List Int).length = 1 := by
  decide

/-- Claim C8 (amended): for every list of integers, `calculate_frequencies`
returns a mapping with exactly the keys 1..6 (in order), whose entry at each
face `f ∈ [1,6]` is the number of occurrences of `f` (0 when absent), and
whose counts sum to the number of entries lying in `[1,6]` — hence to
`len(results)` exactly when every entry is a valid face, as the session
invariant guarantees for `results`. -/
theorem calculate_frequencies_spec (rs : List Int) :
    (calculate_frequencies rs).map Prod.fst = [1, 2, 3, 4, 5, 6] ∧
    (∀ f : Int, 1 ≤ f → f ≤ 6 → (f, rs.count f) ∈ calculate_frequencies rs) ∧
    ((calculate_frequencies rs).map Prod.snd).sum =
      rs.countP (fun r => decide (1 ≤ r ∧ r ≤ 6)) ∧
    ((∀ r ∈ rs, 1 ≤ r ∧ r ≤ 6) →
      ((calculate_frequencies rs).map Prod.snd).sum = rs.length) := by
  have hsum : ((calculate_frequencies rs).map Prod.snd).sum =
      rs.countP (fun r => decide (1 ≤ r ∧ r ≤ 6)) := by
    rw [calculate_frequencies_eq]
    have h := count_sum_eq_countP rs
    simp only [List.map_cons, List.map_nil, List.sum_cons, List.sum_nil]
    omega
  refine ⟨by rw [calculate_frequencies_eq]; rfl, ?_, hsum, ?_⟩
  · intro f h1 h2
    rw [calculate_frequencies_eq]
    interval_cases f <;> simp
  · intro hall
    rw [hsum]
    rw [List.countP_eq_length]
    intro a ha
    simpa using hall a ha

/-- Claim C8 witness: `calculate_frequencies_spec` at the spec example
`[1, 2, 2, 6]`: the counts sum to the length 4, and face 2 maps to count 2. -/
theorem calculate_frequencies_spec_witness :
    ((calculate_frequencies [1, 2, 2, 6]).map Prod.snd).sum = 4 ∧
    ((2 : Int), 2) ∈ calculate_frequencies [1, 2, 2, 6] := by
  constructor
  · have h := (calculate_frequencies_spec [1, 2, 2, 6]).2.2.2 (by decide)
    simpa using h
  · have h := (calculate_frequencies_spec [1, 2, 2, 6]).2.1 2 (by decide) (by decide)
    simpa using h

/- ### Claim C3 -/

theorem action_roll_ok_eq (s : AppState) (res : List ℕ)
    (hroll : s.is_rolling = false) (hdc : 0 < s.dice_count)
    (hlen : s.current_results.length = s.dice_count)
    (hlen2 : (unlockedIndices s).length = res.length)
    (hne : unlockedIndices s ≠ []) :
    action_roll_unlocked_dice s (.ok res) =
      ({ s with
          current_results :=
            (rollLoop s.dice_count s.current_results false
              ((unlockedIndices s).zip res)).1,
          app_roll_count := s.app_roll_count + 1,
          is_rolling := false }, .rolled) := by
  have h1 : ¬ (s.is_rolling = true) := by simp [hroll]
  have h2 : ¬ (s.dice_count = 0) := by omega
  have h3 : ¬ ((unlockedIndices s).isEmpty = true) := by
    simpa [List.isEmpty_iff] using hne
  have hflag : (rollLoop s.dice_count s.current_results false
      ((unlockedIndices s).zip res)).2 = true := by
    obtain ⟨j, jrest, hju⟩ : ∃ j jrest, unlockedIndices s = j :: jrest := by
      cases hu : unlockedIndices s with
      | nil => exact absurd hu hne
      | cons a b => exact ⟨a, b, rfl⟩
    obtain ⟨v, vrest, hres⟩ : ∃ v vrest, res = v :: vrest := by
      cases hres : res with
      | nil => rw [hju, hres] at hlen2; simp at hlen2
      | cons a b => exact ⟨a, b, rfl⟩
    have hj : j < s.dice_count := by
      have : j ∈ unlockedIndices s := by rw [hju]; exact List.mem_cons_self j jrest
      exact (mem_unlockedIndices.mp this).1
    rw [hju, hres]
    exact rollLoop_flag_of_mem s.dice_count ((j, v) :: jrest.zip vrest)
      s.current_results false (j, v) (List.mem_cons_self _ _) hj
  unfold action_roll_unlocked_dice
  rw [if_neg h1, if_neg h2, if_neg h3]
  dsimp only
  rw [if_neg (show ¬ s.current_results.length ≠ s.dice_count by omega),
    if_pos hlen2, if_pos hflag]

/-- Claim C3: a roll that starts from Idle (`isRolling = false`) with at
least one unlocked die and whose per-die animations all complete ends with:
the `rolled` outcome, `isRolling = false`, `rollCount` incremented by
exactly 1 (however many dice were rolled), results still of length
`diceCount`, `results[i]` unchanged for every locked `i`, and `results[j]`
equal (position by position) to the coordinator's returned final face for
every unlocked `j` — every returned face lying in `[1, 6]`. -/
theorem roll_unlocked_commits (s : AppState) (c : DiceAnimationController)
    (durs : ℕ → ℚ) (draws : ℕ → Fin 6)
    (hroll : s.is_rolling = false)
    (hdc : 0 < s.dice_count)
    (hlen : s.current_results.length = s.dice_count)
    (hne : unlockedIndices s ≠ []) :
    (roll_with_controller s c durs draws).2 = .rolled ∧
    (roll_with_controller s c durs draws).1.is_rolling = false ∧
    (roll_with_controller s c durs draws).1.app_roll_count = s.app_roll_count + 1 ∧
    (roll_with_controller s c durs draws).1.current_results.length = s.dice_count ∧
    (∀ i ∈ s.locked_dice,
        (roll_with_controller s c durs draws).1.current_results[i]? =
          s.current_results[i]?) ∧
    (∀ (k j : ℕ), (unlockedIndices s)[k]? = some j →
        (roll_with_controller s c durs draws).1.current_results[j]? =
          (c.animate_all_dice ((unlockedIndices s).map Int.ofNat)
            durs draws)[k]?) ∧
    (∀ f ∈ c.animate_all_dice ((unlockedIndices s).map Int.ofNat)
        durs draws, 1 ≤ f ∧ f ≤ 6) := by
  have hlen2 : (unlockedIndices s).length =
      (c.animate_all_dice ((unlockedIndices s).map Int.ofNat)
        durs draws).length := by
    rw [animate_all_dice_length, List.length_map]
  have hmain := action_roll_ok_eq s
    (c.animate_all_dice ((unlockedIndices s).map Int.ofNat) durs draws)
    hroll hdc hlen hlen2 hne
  have hrw : roll_with_controller s c durs draws =
      ({ s with
          current_results :=
            (rollLoop s.dice_count s.current_results false
              ((unlockedIndices s).zip
                (c.animate_all_dice ((unlockedIndices s).map Int.ofNat)
                  durs draws))).1,
          app_roll_count := s.app_roll_count + 1,
          is_rolling := false }, .rolled) := by
    rw [roll_with_controller, hmain]
  have hfst : ((unlockedIndices s).zip
      (c.animate_all_dice ((unlockedIndices s).map Int.ofNat)
        durs draws)).map Prod.fst = unlockedIndices s :=
    List.map_fst_zip _ _ (le_of_eq hlen2)
  refine ⟨by rw [hrw], by rw [hrw], by rw [hrw], ?_, ?_, ?_,
    animate_all_dice_face_bounds c _ durs draws⟩
  · rw [hrw]
    show (rollLoop _ _ _ _).1.length = s.dice_count
    rw [rollLoop_length, hlen]
  · intro i hi
    rw [hrw]
    show (rollLoop _ _ _ _).1[i]? = s.current_results[i]?
    apply rollLoop_getElem?_untouched
    intro p hp hpe
    have hpf : p.1 ∈ unlockedIndices s := by
      rw [← hfst]
      exact List.mem_map_of_mem Prod.fst hp
    exact (mem_unlockedIndices.mp hpf).2 (hpe ▸ hi)
  · intro k j hk
    rw [hrw]
    obtain ⟨hklt, hkj⟩ := List.getElem?_eq_some.mp hk
    have hkr : k < (c.animate_all_dice ((unlockedIndices s).map Int.ofNat)
        durs draws).length := by omega
    have hres : (c.animate_all_dice ((unlockedIndices s).map Int.ofNat)
        durs draws)[k]? = some ((c.animate_all_dice
          ((unlockedIndices s).map Int.ofNat) durs draws)[k]) :=
      List.getElem?_eq_getElem hkr
    rw [hres]
    apply rollLoop_getElem?_commit s.dice_count _ _ _ k
    · rw [hfst]
      exact nodup_unlockedIndices s
    · exact List.getElem?_zip_eq_some.mpr ⟨hk, hres⟩
    · have hj : j ∈ unlockedIndices s := hkj ▸ List.getElem_mem hklt
      exact (mem_unlockedIndices.mp hj).1
    · have hj : j ∈ unlockedIndices s := hkj ▸ List.getElem_mem hklt
      rw [hlen]
      exact (mem_unlockedIndices.mp hj).1

/-- Claim C3 witness: 3 dice with faces `[2, 3, 4]`, die 0 locked, every
draw landing on face 5: the roll reports `rolled`, keeps `results[0] = 2`,
commits face 5 to die 1, and bumps the roll counter from 0 to 1. -/
theorem roll_unlocked_commits_witness :
    (roll_with_controller ⟨3, false, [2, 3, 4], 0, {0}, 0⟩ ⟨3⟩
        (fun _ => 2 / 5) (fun _ => 4)).2 = .rolled ∧
    (roll_with_controller ⟨3, false, [2, 3, 4], 0, {0}, 0⟩ ⟨3⟩
        (fun _ => 2 / 5) (fun _ => 4)).1.current_results[0]? = some 2 ∧
    (roll_with_controller ⟨3, false, [2, 3, 4], 0, {0}, 0⟩ ⟨3⟩
        (fun _ => 2 / 5) (fun _ => 4)).1.current_results[1]? = some 5 ∧
    (roll_with_controller ⟨3, false, [2, 3, 4], 0, {0}, 0⟩ ⟨3⟩
        (fun _ => 2 / 5) (fun _ => 4)).1.app_roll_count = 1 := by
  have h := roll_unlocked_commits ⟨3, false, [2, 3, 4], 0, {0}, 0⟩ ⟨3⟩
    (fun _ => 2 / 5) (fun _ => 4) rfl (by decide) (by decide) (by decide)
  refine ⟨h.1, ?_, ?_, by simpa using h.2.2.1⟩
  · have h0 := h.2.2.2.2.1 0 (by decide)
    simpa using h0
  · have h1 := h.2.2.2.2.2.1 0 1 (by decide)
    rw [h1]
    decide
